import Mathlib

/-!
# Verification of the mapped-string / provenance-tracking library

Shallow embedding of `src/core/lib/mapped-text.ts` and `src/core/lib/text.ts`
from the quarto-cli repository.  Texts are modelled as `List Char`, JavaScript
numbers used as offsets as `Int`, and `number | undefined` results as
`Option Int`.  A thrown `Error` is modelled as `Except.error` carrying the
message.
-/

set_option autoImplicit false

namespace Quarto

/-- Half-open range `[start, end)` into a source string (`Range` from
`ranged-text.ts`).  The source field `end` is a reserved word in Lean and is
rendered `stop` here. -/
structure Range where
  start : Int
  stop : Int
deriving Repr, DecidableEq, Inhabited

/-- Modelled from the spec: §4.1 Greatest-Lower-Bound Search — the function
`glb` from `src/core/lib/binary-search.ts`, which is not among the provided
source files.  Per the spec it returns the largest index `i` such that
`key items[i] ≤ query`, or a sentinel "none" when the query precedes every key
(the source returns `-1`); on duplicate keys it picks the rightmost.
`glbList` computes that contract by a right-to-left scan. -/
def glbList {α : Type} (key : α → Int) (query : Int) : List α → Option Nat
  | [] => none
  | x :: xs =>
    match glbList key query xs with
    | some j => some (j + 1)
    | none => if key x ≤ query then some 0 else none

/-- Modelled from the spec: §4.1 entry point, `glb(items, query, compare)`. -/
def glb {α : Type} (items : List α) (key : α → Int) (query : Int) : Option Nat :=
  glbList key query items

/-- Type `StringChunk` from `mapped-text.ts`: `string | Range`. -/
inductive StringChunk where
  | lit : List Char → StringChunk
  | rng : Range → StringChunk
deriving Repr, DecidableEq

/-- JavaScript `String.prototype.substring(a, b)`: both indices are clamped to
`[0, length]` and swapped when `a > b`. -/
def jsSubstring (s : List Char) (a b : Int) : List Char :=
  let a' := min (max a 0) (s.length : Int)
  let b' := min (max b 0) (s.length : Int)
  let lo := min a' b'
  let hi := max a' b'
  (s.drop lo.toNat).take (hi - lo).toNat

/-- The text a piece contributes to the result (`resultList` entries in
`mappedString`): a literal is kept as is, a range extracts
`source.substring(piece.start, piece.end)`. -/
def resolvePiece (source : List Char) : StringChunk → List Char
  | .lit s => s
  | .rng r => jsSubstring source r.start r.stop

/-- Record `OffsetInfo` from `mappedString`: one segment descriptor per piece. -/
structure OffsetInfo where
  fromSource : Bool
  length : Nat
  offset : Nat
  range : Option Range
deriving Repr, DecidableEq, Inhabited

/-- The `offsetInfo` array built by the piece loop of `mappedString`
(base case), starting at running offset `offset`. -/
def buildInfos (source : List Char) : List StringChunk → Nat → List OffsetInfo
  | [], _ => []
  | .lit s :: rest, offset =>
    { fromSource := false, length := s.length, offset := offset, range := none } ::
      buildInfos source rest (offset + s.length)
  | .rng r :: rest, offset =>
    let resultPiece := jsSubstring source r.start r.stop
    { fromSource := true, length := resultPiece.length, offset := offset,
      range := some r } ::
      buildInfos source rest (offset + resultPiece.length)

/-- The key used for every `glb` call over `offsetInfo`:
`(a, b) => a.offset - b.offset`. -/
def infoKey (info : OffsetInfo) : Int := (info.offset : Int)

/-- Function `map(targetOffset)` from the base case of `mappedString`.  The source's
`info.range!` non-null assertion is rendered as a match whose `none` branch is
unreachable on arrays built by the piece loop. -/
def mapRaw (infos : List OffsetInfo) (targetOffset : Int) : Option Int :=
  match glb infos infoKey targetOffset with
  | none => none
  | some ix =>
    match infos.get? ix with
    | none => none
    | some info =>
      if info.fromSource then
        if (info.length : Int) ≤ targetOffset - (info.offset : Int) then none
        else
          match info.range with
          | none => none
          | some r => some (r.start + (targetOffset - (info.offset : Int)))
      else none

/-- Body of the backward-scan loop of `mapClosest` for a source-derived
segment (lines setting `smallestSourceInfo` and returning): an exact hit when
the segment is the anchor (`ix === firstIx`) and the local offset falls
strictly within its length, otherwise `range.end - 1`. -/
def sourceHit (info : OffsetInfo) (ix firstIx : Nat) (targetOffset : Int) : Option Int :=
  match info.range with
  | none => none
  | some r =>
    if ix = firstIx ∧ targetOffset - (info.offset : Int) < (info.length : Int) then
      some (r.start + (targetOffset - (info.offset : Int)))
    else
      some (r.stop - 1)

/-- The `while (ix >= 0)` backward scan of `mapClosest`, skipping literal
segments; exiting the loop without a source-derived hit yields `undefined`
(the `smallestSourceInfo` fallback of the source is unreachable, as the loop
returns whenever it sets that variable). -/
def scanBack (infos : List OffsetInfo) (firstIx : Nat) (targetOffset : Int) : Nat → Option Int
  | 0 =>
    match infos.get? 0 with
    | none => none
    | some info =>
      if info.fromSource then sourceHit info 0 firstIx targetOffset else none
  | ix + 1 =>
    match infos.get? (ix + 1) with
    | none => none
    | some info =>
      if info.fromSource then sourceHit info (ix + 1) firstIx targetOffset
      else scanBack infos firstIx targetOffset ix

/-- Function `mapClosest(targetOffset)` from the base case of `mappedString`. -/
def mapClosestRaw (infos : List OffsetInfo) (targetOffset : Int) : Option Int :=
  if infos.length = 0 ∨ targetOffset < 0 then none
  else
    match glb infos infoKey targetOffset with
    | none => none
    | some firstIx => scanBack infos firstIx targetOffset firstIx

/-- Interface `MappedString` from `mapped-text.ts`. -/
structure MappedString where
  value : List Char
  originalString : List Char
  map : Int → Option Int
  mapClosest : Int → Option Int

/-- The base case of `mappedString` (the `typeof source === "string"` branch). -/
def mappedStringRaw (source : List Char) (pieces : List StringChunk) : MappedString :=
  { value := (pieces.map (resolvePiece source)).flatten
    originalString := source
    map := mapRaw (buildInfos source pieces 0)
    mapClosest := mapClosestRaw (buildInfos source pieces 0) }

/-- The union argument type `string | MappedString` of `mappedString`. -/
inductive EitherString where
  | str : List Char → EitherString
  | mapped : MappedString → EitherString

/-- Function `mappedString(source, pieces)`.  The recursive branch builds the
intermediate Mapped String against `source.value` (which takes the base-case
branch, i.e. `mappedStringRaw`) and composes maps as `composeMap` /
`composeMapClosest` do: short-circuiting `undefined`. -/
def mappedString : EitherString → List StringChunk → MappedString
  | .str source, pieces => mappedStringRaw source pieces
  | .mapped source, pieces =>
    let next := mappedStringRaw source.value pieces
    { value := next.value
      originalString := source.originalString
      map := fun offset => (next.map offset).bind source.map
      mapClosest := fun offset => (next.mapClosest offset).bind source.mapClosest }

/-- Function `asMappedString(str)`: the identity wrapper.  Its `map` and `mapClosest`
always return their argument (never `undefined`), hence `some x`. -/
def asMappedString (str : List Char) : MappedString :=
  { value := str
    originalString := str
    map := fun x => some x
    mapClosest := fun x => some x }

/-- The cumulative-offset table built by `mappedConcat`'s `for` loop: each
entry is the running total *after* adding that input's length. -/
def cumulativeOffsets : List MappedString → Nat → List Nat
  | [], _ => []
  | s :: rest, currentOffset =>
    (currentOffset + s.value.length) :: cumulativeOffsets rest (currentOffset + s.value.length)

/-- Function `map(offset)` of the Mapped String returned by `mappedConcat`.  When `glb`
returns the sentinel, the source evaluates `strings[-1].map(...)`, a crash
(`TypeError`), modelled here as `none`; likewise the (impossible) case of an
index past the array. -/
def concatMap (strings : List MappedString) (offsets : List Nat) (valueLen : Nat)
    (offset : Int) : Option Int :=
  if offset < 0 ∨ (valueLen : Int) ≤ offset then none
  else
    match glb offsets (fun x => (x : Int)) offset with
    | none => none
    | some ix =>
      match strings.get? ix, offsets.get? ix with
      | some s, some off => s.map (offset - (off : Int))
      | _, _ => none

/-- Function `mapClosest(offset)` of the Mapped String returned by `mappedConcat`;
same shape as `concatMap` with the elements' `mapClosest`. -/
def concatMapClosest (strings : List MappedString) (offsets : List Nat) (valueLen : Nat)
    (offset : Int) : Option Int :=
  if offset < 0 ∨ (valueLen : Int) ≤ offset then none
  else
    match glb offsets (fun x => (x : Int)) offset with
    | none => none
    | some ix =>
      match strings.get? ix, offsets.get? ix with
      | some s, some off => s.mapClosest (offset - (off : Int))
      | _, _ => none

/-- Function `mappedConcat(strings)`: throws on the empty list, else concatenates the
values and routes offsets through the cumulative table. -/
def mappedConcat (strings : List MappedString) : Except String MappedString :=
  match strings with
  | [] => .error "strings must be non-empty"
  | s0 :: _ =>
    let offsets := cumulativeOffsets strings 0
    let value := (strings.map (fun s => s.value)).flatten
    .ok { value := value
          originalString := s0.originalString
          map := concatMap strings offsets value.length
          mapClosest := concatMapClosest strings offsets value.length }

/-- The `matchAll(/\r?\n/g)` loop of `lineNumbers` in `text.ts`: for each line
terminator (a `\n`, optionally preceded by `\r`, consumed together) it records
`m.index + m[0].length`, the offset immediately past the terminator.  `i` is
the absolute offset of the head of the remaining text. -/
def terminatorEnds : List Char → Nat → List Nat
  | [], _ => []
  | '\r' :: '\n' :: rest, i => (i + 2) :: terminatorEnds rest (i + 2)
  | '\n' :: rest, i => (i + 1) :: terminatorEnds rest (i + 1)
  | _ :: rest, i => terminatorEnds rest (i + 1)

/-- The `lineOffsets` table of `lineNumbers`: `[0]`, one entry per terminator,
and the trailing sentinel `text.length`. -/
def lineOffsets (text : List Char) : List Nat :=
  0 :: (terminatorEnds text 0 ++ [text.length])

/-- The lookup closure returned by `lineNumbers(text)`.  When `glb` returns
the sentinel the source reads `lineOffsets[-1]`, producing a junk
`{line: -1, column: NaN}` record; that out-of-contract case is modelled as
`none`. -/
def lineNumbersFn (text : List Char) (offset : Int) : Option (Nat × Int) :=
  match glb (lineOffsets text) (fun x => (x : Int)) offset with
  | none => none
  | some startIndex =>
    some (startIndex, offset - ((lineOffsets text).getD startIndex 0 : Int))

/-- Function `mappedLineNumbers(text)` applied to an offset: resolve through
`mapClosest`, throw the internal error on `undefined`, else feed the resolved
original offset to the line index. -/
def mappedLineNumbers (text : MappedString) (offset : Int) :
    Except String (Option (Nat × Int)) :=
  match text.mapClosest offset with
  | none => .error "Internal Error: bad offset in mappedLineNumbers"
  | some n => .ok (lineNumbersFn text.originalString n)

/-! ## Spec-side definitions and concrete instances used by the claims -/

/-- The segment descriptor contributed by one piece at running offset `off`
(the record pushed by one iteration of the piece loop). -/
def pieceInfo (source : List Char) (p : StringChunk) (off : Nat) : OffsetInfo :=
  match p with
  | .lit s => { fromSource := false, length := s.length, offset := off, range := none }
  | .rng r => { fromSource := true, length := (jsSubstring source r.start r.stop).length,
                offset := off, range := some r }

/-- The forward map as claim C5 words it: locate the covering segment by
greatest-lower-bound over segment start offsets; unmapped when that segment is
literal or the offset falls past the segment's length; else
`segment.range.start + (o - segment.offset)`. -/
def specMap (infos : List OffsetInfo) (o : Int) : Option Int :=
  match glb infos infoKey o with
  | none => none
  | some ix =>
    let info := infos.getD ix default
    if info.fromSource = false ∨ (info.length : Int) ≤ o - (info.offset : Int) then none
    else some ((info.range.getD default).start + (o - (info.offset : Int)))

/-- The claim's "nearest source-derived segment at or before the anchor": the largest
index `j ≤ ix` whose segment is source-derived. -/
def lastSourceAtOrBefore (infos : List OffsetInfo) : Nat → Option Nat
  | 0 => if (infos.getD 0 default).fromSource then some 0 else none
  | ix + 1 =>
    if (infos.getD (ix + 1) default).fromSource then some (ix + 1)
    else lastSourceAtOrBefore infos ix

/-- The claim's closest-match answer once the anchor segment is known: an
exact forward hit when the anchor itself is source-derived and the offset
falls strictly within its length, else `range.end - 1` of the nearest
source-derived segment at or before the anchor, else unmapped. -/
def specClosestAt (infos : List OffsetInfo) (o : Int) (anchor : Nat) : Option Int :=
  match lastSourceAtOrBefore infos anchor with
  | none => none
  | some j =>
    let info := infos.getD j default
    let r := info.range.getD default
    if j = anchor ∧ o - (info.offset : Int) < (info.length : Int) then
      some (r.start + (o - (info.offset : Int)))
    else some (r.stop - 1)

/-- Function `mapClosest` as claim C2 words it: find the anchor segment by
greatest-lower-bound over segment start offsets, then answer per
`specClosestAt`; unmapped when there is no anchor. -/
def specMapClosest (infos : List OffsetInfo) (o : Int) : Option Int :=
  match glb infos infoKey o with
  | none => none
  | some anchor => specClosestAt infos o anchor

/-- What the backward scan computes at index `ix`: the `sourceHit` answer of
the nearest source-derived segment at or before `ix`, if any. -/
def scanSpec (infos : List OffsetInfo) (firstIx : Nat) (o : Int) (ix : Nat) : Option Int :=
  match lastSourceAtOrBefore infos ix with
  | none => none
  | some j => sourceHit (infos.getD j default) j firstIx o

/-- The line-start table as claim C9 words it: one line start immediately
after each `\n` character — so `\r\n` and `\n` both act as a single
terminator ending at the `\n`, never double-counted. -/
def specLineStarts : List Char → Nat → List Nat
  | [], _ => []
  | c :: rest, i =>
    if c = '\n' then (i + 1) :: specLineStarts rest (i + 1)
    else specLineStarts rest (i + 1)

/-- The text "abc", the first three characters of "abcdef", as a Mapped String. -/
def strA : MappedString := mappedString (.str "abcdef".toList) [.rng ⟨0, 3⟩]

/-- The text "def", the last three characters of "abcdef", as a Mapped String. -/
def strB : MappedString := mappedString (.str "abcdef".toList) [.rng ⟨3, 6⟩]

/-- The text "cde", the middle of "abcdef", as a Mapped String. -/
def strC : MappedString := mappedString (.str "abcdef".toList) [.rng ⟨2, 5⟩]

/-- The piece list of the spec's §8 scenario over source "abcdef":
`[range(2,5), "-X-", range(0,2)]`. -/
def scenarioPieces : List StringChunk :=
  [.rng ⟨2, 5⟩, .lit "-X-".toList, .rng ⟨0, 2⟩]

/-- The piece list of the closest-match scenario over source "hello world". -/
def helloPieces : List StringChunk :=
  [.lit "prefix-literal".toList, .rng ⟨0, 5⟩, .lit "suffix-literal".toList]

/-- The Mapped String that `mappedConcat [asMappedString "a"]` evaluates to,
spelled out; used as a concrete witness input. -/
def oneConcat : MappedString :=
  { value := "a".toList
    originalString := "a".toList
    map := concatMap [asMappedString "a".toList] [1] 1
    mapClosest := concatMapClosest [asMappedString "a".toList] [1] 1 }

/-- The Mapped Strings obtainable from the library's public constructors
(`mappedString`, `asMappedString`, and a successful `mappedConcat`). -/
inductive Produced : MappedString → Prop
  | base (source : List Char) (pieces : List StringChunk) :
      Produced (mappedString (.str source) pieces)
  | comp (m : MappedString) (pieces : List StringChunk) :
      Produced m → Produced (mappedString (.mapped m) pieces)
  | ident (s : List Char) : Produced (asMappedString s)
  | concat (strings : List MappedString) (c : MappedString) :
      (∀ s ∈ strings, Produced s) → mappedConcat strings = .ok c → Produced c

/-! ## Lemmas about the greatest-lower-bound search -/

theorem glbList_of_all_gt {α : Type} (key : α → Int) (query : Int) :
    ∀ (xs : List α), (∀ x ∈ xs, query < key x) → glbList key query xs = none
  | [], _ => rfl
  | x :: xs, h => by
    have hx : ¬ key x ≤ query := not_le.mpr (h x (List.mem_cons_self x xs))
    have hxs := glbList_of_all_gt key query xs (fun y hy => h y (List.mem_cons_of_mem x hy))
    simp [glbList, hxs, hx]

theorem glbList_none_all_gt {α : Type} (key : α → Int) (query : Int) :
    ∀ (xs : List α), glbList key query xs = none → ∀ x ∈ xs, query < key x
  | [], _, x, hx => absurd hx (List.not_mem_nil x)
  | x :: xs, h, y, hy => by
    cases hrec : glbList key query xs with
    | some j => simp [glbList, hrec] at h
    | none =>
      simp [glbList, hrec] at h
      rcases List.mem_cons.mp hy with rfl | hy'
      · exact h
      · exact glbList_none_all_gt key query xs hrec y hy'

theorem glbList_isSome_of_head {α : Type} (key : α → Int) (query : Int) (x : α) (xs : List α)
    (h : key x ≤ query) : ∃ j, glbList key query (x :: xs) = some j := by
  cases hrec : glbList key query xs with
  | some j => exact ⟨j + 1, by simp [glbList, hrec]⟩
  | none => exact ⟨0, by simp [glbList, hrec, h]⟩

theorem glbList_get {α : Type} (key : α → Int) (query : Int) :
    ∀ (xs : List α) (j : Nat), glbList key query xs = some j →
      ∃ x, xs.get? j = some x ∧ key x ≤ query
  | [], j, h => by simp [glbList] at h
  | x :: xs, j, h => by
    cases hrec : glbList key query xs with
    | some j' =>
      simp only [glbList, hrec] at h
      obtain rfl : j' + 1 = j := Option.some.inj h
      obtain ⟨y, hy, hk⟩ := glbList_get key query xs j' hrec
      exact ⟨y, by simpa using hy, hk⟩
    | none =>
      simp only [glbList, hrec] at h
      by_cases hx : key x ≤ query
      · rw [if_pos hx] at h
        obtain rfl : 0 = j := Option.some.inj h
        exact ⟨x, rfl, hx⟩
      · rw [if_neg hx] at h
        exact absurd h (by simp)

theorem glbList_gt_after {α : Type} (key : α → Int) (query : Int) :
    ∀ (xs : List α) (j : Nat), glbList key query xs = some j →
      ∀ (j' : Nat) (x : α), j < j' → xs.get? j' = some x → query < key x
  | [], j, h => by simp [glbList] at h
  | x :: xs, j, h => by
    intro j' y hj hy
    cases hrec : glbList key query xs with
    | some j'' =>
      simp only [glbList, hrec] at h
      obtain rfl : j'' + 1 = j := Option.some.inj h
      obtain ⟨k, rfl⟩ : ∃ k, j' = k + 1 := ⟨j' - 1, by omega⟩
      exact glbList_gt_after key query xs j'' hrec k y (by omega) (by simpa using hy)
    | none =>
      obtain ⟨k, rfl⟩ : ∃ k, j' = k + 1 := ⟨j' - 1, by omega⟩
      have : xs.get? k = some y := by simpa using hy
      exact glbList_none_all_gt key query xs hrec y (List.get?_mem this)

/-! ## Lemmas about the segment table built by `mappedString` -/

theorem buildInfos_cons (source : List Char) (p : StringChunk) (rest : List StringChunk)
    (off : Nat) :
    buildInfos source (p :: rest) off
      = pieceInfo source p off ::
          buildInfos source rest (off + (resolvePiece source p).length) := by
  cases p <;> rfl

theorem pieceInfo_offset (source : List Char) (p : StringChunk) (off : Nat) :
    (pieceInfo source p off).offset = off := by
  cases p <;> rfl

theorem buildInfos_offset_le (source : List Char) :
    ∀ (pieces : List StringChunk) (off : Nat) (info : OffsetInfo),
      info ∈ buildInfos source pieces off → off ≤ info.offset
  | [], _, _, h => absurd h (List.not_mem_nil _)
  | p :: rest, off, info, h => by
    rw [buildInfos_cons] at h
    rcases List.mem_cons.mp h with rfl | h'
    · rw [pieceInfo_offset]
    · exact le_trans (Nat.le_add_right off _)
        (buildInfos_offset_le source rest (off + (resolvePiece source p).length) info h')

theorem buildInfos_offset_mono (source : List Char) :
    ∀ (pieces : List StringChunk) (off : Nat) (j1 j2 : Nat) (i1 i2 : OffsetInfo),
      j1 ≤ j2 →
      (buildInfos source pieces off).get? j1 = some i1 →
      (buildInfos source pieces off).get? j2 = some i2 →
      i1.offset ≤ i2.offset
  | [], _, j1, j2, i1, i2, _, h1, _ => by simp [buildInfos] at h1
  | p :: rest, off, 0, j2, i1, i2, _, h1, h2 => by
    rw [buildInfos_cons] at h1 h2
    obtain rfl : pieceInfo source p off = i1 := Option.some.inj (by simpa using h1)
    rw [pieceInfo_offset]
    have : i2 ∈ pieceInfo source p off :: buildInfos source rest (off + (resolvePiece source p).length) :=
      List.get?_mem h2
    rcases List.mem_cons.mp this with rfl | h'
    · rw [pieceInfo_offset]
    · exact le_trans (Nat.le_add_right off _)
        (buildInfos_offset_le source rest _ i2 h')
  | p :: rest, off, j1 + 1, j2, i1, i2, hle, h1, h2 => by
    obtain ⟨k, rfl⟩ : ∃ k, j2 = k + 1 := ⟨j2 - 1, by omega⟩
    rw [buildInfos_cons] at h1 h2
    exact buildInfos_offset_mono source rest (off + (resolvePiece source p).length)
      j1 k i1 i2 (by omega) (by simpa using h1) (by simpa using h2)

theorem buildInfos_range_isSome (source : List Char) :
    ∀ (pieces : List StringChunk) (off : Nat) (info : OffsetInfo),
      info ∈ buildInfos source pieces off → info.fromSource = true → info.range.isSome
  | [], _, _, h, _ => absurd h (List.not_mem_nil _)
  | p :: rest, off, info, h, hsrc => by
    rw [buildInfos_cons] at h
    rcases List.mem_cons.mp h with rfl | h'
    · cases p with
      | lit s => simp [pieceInfo] at hsrc
      | rng r => simp [pieceInfo]
    · exact buildInfos_range_isSome source rest _ info h' hsrc

-- Sanity checks against the spec's §8 scenario: source "abcdef",
-- pieces [range(2,5), "-X-", range(0,2)].
example :
    (mappedString (.str "abcdef".toList)
      [.rng ⟨2, 5⟩, .lit "-X-".toList, .rng ⟨0, 2⟩]).value = "cde-X-ab".toList := by decide

example :
    (mappedString (.str "abcdef".toList)
      [.rng ⟨2, 5⟩, .lit "-X-".toList, .rng ⟨0, 2⟩]).map 0 = some 2 := by decide

example :
    (mappedString (.str "abcdef".toList)
      [.rng ⟨2, 5⟩, .lit "-X-".toList, .rng ⟨0, 2⟩]).map 3 = none := by decide

example :
    (mappedString (.str "abcdef".toList)
      [.rng ⟨2, 5⟩, .lit "-X-".toList, .rng ⟨0, 2⟩]).map 6 = some 0 := by decide

example :
    (mappedString (.str "abcdef".toList)
      [.rng ⟨2, 5⟩, .lit "-X-".toList, .rng ⟨0, 2⟩]).mapClosest 5 = some 4 := by decide

example : lineOffsets "ab\r\ncd\nef".toList = [0, 4, 7, 9] := by decide

example : lineNumbersFn "ab\r\ncd\nef".toList 8 = some (2, 1) := by decide

/-! ## Helper lemmas for the round-trip claims -/

theorem jsSubstring_full (s : List Char) : jsSubstring s 0 (s.length : Int) = s := by
  unfold jsSubstring
  simp

theorem roundTrip_base (s : List Char) :
    (mappedString (.str s) [.rng ⟨0, (s.length : Int)⟩]).value = s ∧
    ∀ o : Int, 0 ≤ o → o < (s.length : Int) →
      (mappedString (.str s) [.rng ⟨0, (s.length : Int)⟩]).map o = some o := by
  constructor
  · show (([StringChunk.rng ⟨0, (s.length : Int)⟩]).map (resolvePiece s)).flatten = s
    simp [resolvePiece, jsSubstring_full]
  · intro o h0 h1
    show mapRaw (buildInfos s [.rng ⟨0, (s.length : Int)⟩] 0) o = some o
    have hinfos : buildInfos s [.rng ⟨0, (s.length : Int)⟩] 0
        = [{ fromSource := true, length := s.length, offset := 0,
             range := some ⟨0, (s.length : Int)⟩ }] := by
      simp [buildInfos, jsSubstring_full]
    rw [hinfos]
    simp [mapRaw, glb, glbList, infoKey, h0, not_le.mpr h1]

/-! ## Claim theorems -/

/-- C8: `mappedConcat` applied to an empty list of Mapped Strings raises an
error ("strings must be non-empty") rather than returning any Mapped String. -/
theorem mappedConcat_empty_fails :
    mappedConcat [] = Except.error "strings must be non-empty" := rfl

/-- C1 (code-bug evidence): `mappedConcat` fills its cumulative table with
*end* offsets (`currentOffset += s.value.length; offsets.push(currentOffset)`)
but then indexes `strings[glb(offsets, offset)]` directly.  With `A = "abc"`
and `B = "def"` cut from `"abcdef"`, the concatenation sends offset `3` (the
first character of `B`) to `A.map(0) = 0` where the claim requires
`B.map(0) = 3`, and on offset `0` the source reads `strings[-1]` and crashes
(modelled as `none`) where the claim requires `A.map(0) = 0`; `mapClosest`
misroutes identically. -/
theorem mappedConcat_misroutes_offsets :
    strA.value = "abc".toList ∧ strB.value = "def".toList ∧
    strA.originalString = strB.originalString ∧
    strA.map 0 = some 0 ∧ strB.map 0 = some 3 ∧ strB.mapClosest 0 = some 3 ∧
    (mappedConcat [strA, strB]).toOption.map
        (fun c => (c.map 3, c.mapClosest 3, c.map 0, c.mapClosest 0))
      = some (some 0, some 0, none, none) := by decide

/-- C3: building from a Mapped String source keeps the root `originalString`
(the source's `originalString`, not its `value`), and the result's maps are
the pointwise composition of the intermediate base-case construction over the
source's `value` with the source's own maps, short-circuiting "unmapped";
illustrated on a two-step chain over "abcdef". -/
theorem mappedString_composes :
    (∀ (m : MappedString) (pieces : List StringChunk),
      (mappedString (.mapped m) pieces).originalString = m.originalString ∧
      ∀ o : Int,
        (mappedString (.mapped m) pieces).map o
          = ((mappedStringRaw m.value pieces).map o).bind m.map ∧
        (mappedString (.mapped m) pieces).mapClosest o
          = ((mappedStringRaw m.value pieces).mapClosest o).bind m.mapClosest) ∧
    ((mappedString (.mapped strC) [.rng ⟨1, 3⟩]).originalString = "abcdef".toList ∧
     (mappedString (.mapped strC) [.rng ⟨1, 3⟩]).value = "de".toList ∧
     strC.value = "cde".toList ∧
     (mappedString (.mapped strC) [.rng ⟨1, 3⟩]).map 0 = some 3 ∧
     (mappedString (.mapped strC) [.rng ⟨1, 3⟩]).map 1 = some 4 ∧
     (mappedString (.mapped strC) [.rng ⟨1, 3⟩]).map 2 = none ∧
     (mappedString (.mapped strC) [.rng ⟨1, 3⟩]).mapClosest 2 = some 4) := by
  exact ⟨fun m pieces => ⟨rfl, fun o => ⟨rfl, rfl⟩⟩, by decide⟩

/-- C6 (counterexample): with the Mapped String `strC` (value "cde", derived
from "abcdef") as the source and the single piece `range(0, 3)` spanning all
of it, the construction copies the value but `map 0` is `2`, not `0`: the
claim's `map(o) == o` fails when the source is itself a Mapped String. -/
theorem roundTrip_counterexample :
    (mappedString (.mapped strC) [.rng ⟨0, 3⟩]).value = strC.value ∧
    (mappedString (.mapped strC) [.rng ⟨0, 3⟩]).map 0 = some 2 ∧
    some 2 ≠ (some 0 : Option Int) := by decide

/-- C6 (amended): round-trip on copy — for a raw-text source `S`, the
construction with the single piece `range(0, |S|)` returns `S` itself as the
value and the identity forward map on every valid offset; for a Mapped String
source the value round-trips and the forward map equals the source's own map
(the identity composed with it), not the identity. -/
theorem roundTrip_amended :
    (∀ s : List Char,
      (mappedString (.str s) [.rng ⟨0, (s.length : Int)⟩]).value = s ∧
      ∀ o : Int, 0 ≤ o → o < (s.length : Int) →
        (mappedString (.str s) [.rng ⟨0, (s.length : Int)⟩]).map o = some o) ∧
    (∀ m : MappedString,
      (mappedString (.mapped m) [.rng ⟨0, (m.value.length : Int)⟩]).value = m.value ∧
      ∀ o : Int, 0 ≤ o → o < (m.value.length : Int) →
        (mappedString (.mapped m) [.rng ⟨0, (m.value.length : Int)⟩]).map o = m.map o) := by
  refine ⟨roundTrip_base, fun m => ⟨(roundTrip_base m.value).1, fun o h0 h1 => ?_⟩⟩
  show ((mappedStringRaw m.value [.rng ⟨0, (m.value.length : Int)⟩]).map o).bind m.map
      = m.map o
  have h2 : (mappedStringRaw m.value [.rng ⟨0, (m.value.length : Int)⟩]).map o = some o :=
    (roundTrip_base m.value).2 o h0 h1
  rw [h2]
  rfl

theorem roundTrip_amended_witness :
    (mappedString (.str "ab".toList) [.rng ⟨0, ("ab".toList.length : Int)⟩]).map 1 = some 1 ∧
    (mappedString (.mapped (asMappedString "ab".toList))
        [.rng ⟨0, ((asMappedString "ab".toList).value.length : Int)⟩]).map 0
      = (asMappedString "ab".toList).map 0 :=
  ⟨(roundTrip_amended.1 "ab".toList).2 1 (by decide) (by decide),
   (roundTrip_amended.2 (asMappedString "ab".toList)).2 0 (by decide) (by decide)⟩

/-- C10: the identity wrapper's `map` and `mapClosest` return the offset
itself for every integer offset, including negative and past-the-end ones,
whereas the base-case constructor and the concatenation combinator answer
"unmapped" outside their value's range. -/
theorem asMappedString_total_identity :
    (∀ (s : List Char) (x : Int),
      (asMappedString s).map x = some x ∧ (asMappedString s).mapClosest x = some x) ∧
    (∀ (source : List Char) (pieces : List StringChunk) (x : Int), x < 0 →
      (mappedString (.str source) pieces).map x = none ∧
      (mappedString (.str source) pieces).mapClosest x = none) ∧
    (∀ (strings : List MappedString) (c : MappedString) (x : Int),
      mappedConcat strings = .ok c →
      (x < 0 ∨ (c.value.length : Int) ≤ x) →
      c.map x = none ∧ c.mapClosest x = none) := by
  refine ⟨fun s x => ⟨rfl, rfl⟩, fun source pieces x hx => ⟨?_, ?_⟩, ?_⟩
  · show mapRaw (buildInfos source pieces 0) x = none
    have hglb : glb (buildInfos source pieces 0) infoKey x = none :=
      glbList_of_all_gt infoKey x _
        (fun info _ => lt_of_lt_of_le hx (Int.ofNat_nonneg info.offset))
    simp [mapRaw, hglb]
  · show mapClosestRaw (buildInfos source pieces 0) x = none
    simp [mapClosestRaw, hx]
  · intro strings c x hok hx
    cases strings with
    | nil => simp [mappedConcat] at hok
    | cons s0 rest =>
      simp only [mappedConcat, Except.ok.injEq] at hok
      subst hok
      have hx' : x < 0 ∨
          (((List.map (fun s => s.value) (s0 :: rest)).flatten.length : Nat) : Int) ≤ x := hx
      constructor
      · show concatMap (s0 :: rest) (cumulativeOffsets (s0 :: rest) 0)
            (List.map (fun s => s.value) (s0 :: rest)).flatten.length x = none
        unfold concatMap
        rw [if_pos hx']
      · show concatMapClosest (s0 :: rest) (cumulativeOffsets (s0 :: rest) 0)
            (List.map (fun s => s.value) (s0 :: rest)).flatten.length x = none
        unfold concatMapClosest
        rw [if_pos hx']

theorem asMappedString_total_identity_witness :
    (asMappedString "a".toList).map (-5) = some (-5) ∧
    (mappedString (.str "a".toList) [.lit "b".toList]).map (-1) = none ∧
    oneConcat.map 5 = none :=
  ⟨(asMappedString_total_identity.1 "a".toList (-5)).1,
   (asMappedString_total_identity.2.1 "a".toList [.lit "b".toList] (-1) (by decide)).1,
   (asMappedString_total_identity.2.2 [asMappedString "a".toList] oneConcat 5 rfl
      (by decide)).1⟩

/-! ## The base-case forward map agrees with its spec description (C5) -/

theorem mapRaw_eq_specMap (source : List Char) (pieces : List StringChunk) (o : Int) :
    mapRaw (buildInfos source pieces 0) o = specMap (buildInfos source pieces 0) o := by
  unfold mapRaw specMap
  cases hglb : glb (buildInfos source pieces 0) infoKey o with
  | none => rfl
  | some ix =>
    obtain ⟨info, hget, hkey⟩ := glbList_get infoKey o (buildInfos source pieces 0) ix hglb
    have hgetD : (buildInfos source pieces 0).getD ix default = info := by
      simp [List.getD, ← List.get?_eq_getElem?, hget]
    simp only [hget, hgetD]
    cases hsrc : info.fromSource with
    | false => simp [hsrc]
    | true =>
      by_cases hlen : (info.length : Int) ≤ o - (info.offset : Int)
      · simp [hsrc, hlen]
      · obtain ⟨r, hr⟩ := Option.isSome_iff_exists.mp
          (buildInfos_range_isSome source pieces 0 info (List.get?_mem hget) hsrc)
        simp [hsrc, hlen, hr]

/-- C5: the base case concatenates the resolved pieces into `value`, and the
forward map locates the covering segment by greatest-lower-bound over segment
start offsets, answering "unmapped" when that segment is literal or the offset
falls past its length and `segment.range.start + (o - segment.offset)`
otherwise; in particular the spec's "abcdef" / `[range(2,5), "-X-",
range(0,2)]` scenario evaluates exactly as the claim lists. -/
theorem mappedString_base_spec :
    (∀ (source : List Char) (pieces : List StringChunk),
      (mappedString (.str source) pieces).value
        = (pieces.map (resolvePiece source)).flatten) ∧
    (∀ (source : List Char) (pieces : List StringChunk) (o : Int),
      (mappedString (.str source) pieces).map o
        = specMap (buildInfos source pieces 0) o) ∧
    ((mappedString (.str "abcdef".toList) scenarioPieces).value = "cde-X-ab".toList ∧
     (mappedString (.str "abcdef".toList) scenarioPieces).map 0 = some 2 ∧
     (mappedString (.str "abcdef".toList) scenarioPieces).map 1 = some 3 ∧
     (mappedString (.str "abcdef".toList) scenarioPieces).map 2 = some 4 ∧
     (mappedString (.str "abcdef".toList) scenarioPieces).map 3 = none ∧
     (mappedString (.str "abcdef".toList) scenarioPieces).map 4 = none ∧
     (mappedString (.str "abcdef".toList) scenarioPieces).map 5 = none ∧
     (mappedString (.str "abcdef".toList) scenarioPieces).map 6 = some 0 ∧
     (mappedString (.str "abcdef".toList) scenarioPieces).map 7 = some 1 ∧
     (mappedString (.str "abcdef".toList) scenarioPieces).mapClosest 3 = some 4 ∧
     (mappedString (.str "abcdef".toList) scenarioPieces).mapClosest 4 = some 4 ∧
     (mappedString (.str "abcdef".toList) scenarioPieces).mapClosest 5 = some 4) :=
  ⟨fun _ _ => rfl, mapRaw_eq_specMap, by decide⟩

/-! ## The closest-match inverse agrees with its spec description (C2) -/

theorem lastSourceAtOrBefore_none (infos : List OffsetInfo) :
    ∀ (ix : Nat), lastSourceAtOrBefore infos ix = none →
      ∀ j, j ≤ ix → (infos.getD j default).fromSource = false
  | 0, h, j, hj => by
    obtain rfl : j = 0 := Nat.le_zero.mp hj
    simp only [lastSourceAtOrBefore] at h
    by_cases hs : (infos.getD 0 default).fromSource = true
    · rw [if_pos hs] at h
      exact absurd h (by simp)
    · simpa using hs
  | ix + 1, h, j, hj => by
    simp only [lastSourceAtOrBefore] at h
    by_cases hs : (infos.getD (ix + 1) default).fromSource = true
    · rw [if_pos hs] at h
      exact absurd h (by simp)
    · rw [if_neg hs] at h
      rcases Nat.lt_or_ge j (ix + 1) with hlt | hge
      · exact lastSourceAtOrBefore_none infos ix h j (by omega)
      · obtain rfl : j = ix + 1 := by omega
        simpa using hs

theorem lastSourceAtOrBefore_some (infos : List OffsetInfo) :
    ∀ (ix j : Nat), lastSourceAtOrBefore infos ix = some j →
      j ≤ ix ∧ (infos.getD j default).fromSource = true
  | 0, j, h => by
    simp only [lastSourceAtOrBefore] at h
    by_cases hs : (infos.getD 0 default).fromSource = true
    · rw [if_pos hs] at h
      obtain rfl : 0 = j := Option.some.inj h
      exact ⟨Nat.le_refl 0, hs⟩
    · rw [if_neg hs] at h
      exact absurd h (by simp)
  | ix + 1, j, h => by
    simp only [lastSourceAtOrBefore] at h
    by_cases hs : (infos.getD (ix + 1) default).fromSource = true
    · rw [if_pos hs] at h
      obtain rfl : ix + 1 = j := Option.some.inj h
      exact ⟨Nat.le_refl _, hs⟩
    · rw [if_neg hs] at h
      obtain ⟨h1, h2⟩ := lastSourceAtOrBefore_some infos ix j h
      exact ⟨by omega, h2⟩

theorem scanBack_eq (infos : List OffsetInfo) (firstIx : Nat) (o : Int) :
    ∀ (ix : Nat), ix < infos.length →
      scanBack infos firstIx o ix = scanSpec infos firstIx o ix
  | 0, hlt => by
    have hget : infos.get? 0 = some infos[0] := by
      rw [List.get?_eq_getElem?]
      exact List.getElem?_eq_getElem hlt
    have hgetD : infos.getD 0 default = infos[0] := by
      simp [List.getD, List.getElem?_eq_getElem hlt]
    have hgetD2 : infos[0]?.getD default = infos[0] := by
      simp [List.getElem?_eq_getElem hlt]
    unfold scanBack scanSpec
    simp only [hget, lastSourceAtOrBefore, hgetD]
    by_cases hs : infos[0].fromSource = true
    · simp [hs, hgetD, hgetD2]
    · simp [hs]
  | ix + 1, hlt => by
    have hget : infos.get? (ix + 1) = some infos[ix + 1] := by
      rw [List.get?_eq_getElem?]
      exact List.getElem?_eq_getElem hlt
    have hgetD : infos.getD (ix + 1) default = infos[ix + 1] := by
      simp [List.getD, List.getElem?_eq_getElem hlt]
    have hgetD2 : infos[ix + 1]?.getD default = infos[ix + 1] := by
      simp [List.getElem?_eq_getElem hlt]
    unfold scanBack scanSpec
    simp only [hget, lastSourceAtOrBefore, hgetD]
    by_cases hs : infos[ix + 1].fromSource = true
    · simp [hs, hgetD, hgetD2]
    · simp only [hs]
      simp only [Bool.false_eq_true, if_false]
      exact scanBack_eq infos firstIx o ix (by omega)

theorem mapClosestRaw_eq_spec (source : List Char) (pieces : List StringChunk) (o : Int) :
    mapClosestRaw (buildInfos source pieces 0) o
      = specMapClosest (buildInfos source pieces 0) o := by
  by_cases hguard : (buildInfos source pieces 0).length = 0 ∨ o < 0
  · have hglb : glb (buildInfos source pieces 0) infoKey o = none := by
      rcases hguard with h0 | hneg
      · rw [List.length_eq_zero.mp h0]
        rfl
      · exact glbList_of_all_gt infoKey o _
          (fun info _ => lt_of_lt_of_le hneg (Int.ofNat_nonneg info.offset))
    unfold mapClosestRaw specMapClosest
    rw [if_pos hguard]
    simp only [hglb]
  · unfold mapClosestRaw specMapClosest
    rw [if_neg hguard]
    cases hglb : glb (buildInfos source pieces 0) infoKey o with
    | none => rfl
    | some firstIx =>
      show scanBack (buildInfos source pieces 0) firstIx o firstIx
          = specClosestAt (buildInfos source pieces 0) o firstIx
      have hlt : firstIx < (buildInfos source pieces 0).length := by
        obtain ⟨info, hget, _⟩ := glbList_get infoKey o (buildInfos source pieces 0) firstIx hglb
        obtain ⟨h, _⟩ := List.get?_eq_some.mp hget
        exact h
      rw [scanBack_eq (buildInfos source pieces 0) firstIx o firstIx hlt]
      unfold scanSpec specClosestAt
      cases hlast : lastSourceAtOrBefore (buildInfos source pieces 0) firstIx with
      | none => rfl
      | some j =>
        obtain ⟨hj_le, hj_src⟩ :=
          lastSourceAtOrBefore_some (buildInfos source pieces 0) firstIx j hlast
        have hjlt : j < (buildInfos source pieces 0).length := lt_of_le_of_lt hj_le hlt
        have hmem : (buildInfos source pieces 0).getD j default ∈ buildInfos source pieces 0 := by
          rw [List.getD_eq_get _ _ hjlt]
          exact List.get_mem _ _ _
        obtain ⟨r, hr⟩ := Option.isSome_iff_exists.mp
          (buildInfos_range_isSome source pieces 0 _ hmem hj_src)
        simp only [List.getD, List.get?_eq_getElem?] at hr
        simp [sourceHit, hr]

/-- C2: over a raw-text source, `mapClosest` behaves exactly as specified —
an exact forward hit when the anchor segment (found by greatest-lower-bound)
is source-derived and the offset falls strictly inside it, else `range.end-1`
of the nearest source-derived segment at or before the anchor, and "unmapped"
precisely when every source-derived segment starts after the offset; on the
"hello world" scenario, every offset inside the leading literal is unmapped
and every offset inside the trailing literal resolves to `4`. -/
theorem mapClosest_characterization :
    (∀ (source : List Char) (pieces : List StringChunk) (o : Int),
      (mappedString (.str source) pieces).mapClosest o
        = specMapClosest (buildInfos source pieces 0) o) ∧
    (∀ (source : List Char) (pieces : List StringChunk) (o : Int),
      ((mappedString (.str source) pieces).mapClosest o = none ↔
        ∀ (j : Nat) (info : OffsetInfo),
          (buildInfos source pieces 0).get? j = some info →
          info.fromSource = true → o < (info.offset : Int))) ∧
    (∀ o : Nat, o < 14 →
      (mappedString (.str "hello world".toList) helloPieces).mapClosest (o : Int) = none) ∧
    (∀ o : Nat, o < 33 → 19 ≤ o →
      (mappedString (.str "hello world".toList) helloPieces).mapClosest (o : Int) = some 4) := by
  refine ⟨mapClosestRaw_eq_spec, fun source pieces o => ?_, by decide, by decide⟩
  rw [show (mappedString (.str source) pieces).mapClosest o
      = mapClosestRaw (buildInfos source pieces 0) o from rfl]
  rw [mapClosestRaw_eq_spec]
  constructor
  · intro hnone j info hget hsrc
    unfold specMapClosest at hnone
    cases hglb : glb (buildInfos source pieces 0) infoKey o with
    | none =>
      exact glbList_none_all_gt infoKey o _ hglb info (List.get?_mem hget)
    | some anchor =>
      simp only [hglb] at hnone
      unfold specClosestAt at hnone
      cases hlast : lastSourceAtOrBefore (buildInfos source pieces 0) anchor with
      | some j' =>
        simp only [hlast] at hnone
        split at hnone <;> simp at hnone
      | none =>
        rcases Nat.lt_or_ge anchor j with hgt | hle
        · exact glbList_gt_after infoKey o _ anchor hglb j info hgt hget
        · have hgetD : (buildInfos source pieces 0).getD j default = info := by
            simp [List.getD, ← List.get?_eq_getElem?, hget]
          have hf := lastSourceAtOrBefore_none (buildInfos source pieces 0) anchor hlast j hle
          rw [hgetD, hsrc] at hf
          exact absurd hf (by simp)
  · intro hall
    unfold specMapClosest
    cases hglb : glb (buildInfos source pieces 0) infoKey o with
    | none => rfl
    | some anchor =>
      show specClosestAt (buildInfos source pieces 0) o anchor = none
      unfold specClosestAt
      obtain ⟨infoA, hgetA, hkeyA⟩ :=
        glbList_get infoKey o (buildInfos source pieces 0) anchor hglb
      cases hlast : lastSourceAtOrBefore (buildInfos source pieces 0) anchor with
      | none => rfl
      | some j =>
        exfalso
        obtain ⟨hj_le, hj_src⟩ :=
          lastSourceAtOrBefore_some (buildInfos source pieces 0) anchor j hlast
        have hanchor_lt : anchor < (buildInfos source pieces 0).length := by
          obtain ⟨h, _⟩ := List.get?_eq_some.mp hgetA
          exact h
        have hjlt : j < (buildInfos source pieces 0).length := lt_of_le_of_lt hj_le hanchor_lt
        have hgetJ : (buildInfos source pieces 0).get? j
            = some ((buildInfos source pieces 0).getD j default) := by
          rw [List.getD_eq_get _ _ hjlt]
          exact List.get?_eq_get hjlt
        have hlt_o := hall j _ hgetJ hj_src
        have hmono := buildInfos_offset_mono source pieces 0 j anchor _ infoA hj_le hgetJ hgetA
        unfold infoKey at hkeyA
        omega

theorem mapClosest_characterization_witness :
    (mappedString (.str "hello world".toList) helloPieces).mapClosest ((2 : Nat) : Int) = none ∧
    (mappedString (.str "hello world".toList) helloPieces).mapClosest ((20 : Nat) : Int) = some 4 :=
  ⟨mapClosest_characterization.2.2.1 2 (by decide),
   mapClosest_characterization.2.2.2 20 (by decide) (by decide)⟩

/-! ## Mapped line numbers (C7) -/

theorem scanBack_none_of_no_source (infos : List OffsetInfo)
    (h : ∀ info ∈ infos, info.fromSource = false) (firstIx : Nat) (o : Int) :
    ∀ ix : Nat, scanBack infos firstIx o ix = none
  | 0 => by
    cases hget : infos[0]? with
    | none => simp [scanBack, hget]
    | some info =>
      have hf := h info (List.getElem?_mem hget)
      simp [scanBack, hget, hf]
  | ix + 1 => by
    cases hget : infos[ix + 1]? with
    | none => simp [scanBack, hget]
    | some info =>
      have hf := h info (List.getElem?_mem hget)
      simp [scanBack, hget, hf,
        scanBack_none_of_no_source infos h firstIx o ix]

theorem buildInfos_all_literal (source : List Char) :
    ∀ (pieces : List StringChunk) (off : Nat),
      (∀ p ∈ pieces, ∃ s, p = StringChunk.lit s) →
      ∀ info ∈ buildInfos source pieces off, info.fromSource = false
  | [], _, _, info, h => absurd h (List.not_mem_nil _)
  | p :: rest, off, hall, info, h => by
    rw [buildInfos_cons] at h
    rcases List.mem_cons.mp h with rfl | h'
    · obtain ⟨s, rfl⟩ := hall p (List.mem_cons_self p rest)
      rfl
    · exact buildInfos_all_literal source rest _
        (fun q hq => hall q (List.mem_cons_of_mem p hq)) info h'

theorem mapClosestRaw_none_of_no_source (infos : List OffsetInfo)
    (h : ∀ info ∈ infos, info.fromSource = false) (o : Int) :
    mapClosestRaw infos o = none := by
  unfold mapClosestRaw
  by_cases hguard : infos.length = 0 ∨ o < 0
  · rw [if_pos hguard]
  · rw [if_neg hguard]
    cases hglb : glb infos infoKey o with
    | none => rfl
    | some firstIx =>
      show scanBack infos firstIx o firstIx = none
      exact scanBack_none_of_no_source infos h firstIx o firstIx

/-- C7: the function returned by `mappedLineNumbers` throws the internal
error exactly when `mapClosest` answers "unmapped", and otherwise feeds the
resolved original offset to the line index over `originalString`; over a
Mapped String built entirely of literal pieces it throws for every queried
offset. -/
theorem mappedLineNumbers_spec :
    (∀ (t : MappedString) (o : Int),
      ((∃ e, mappedLineNumbers t o = .error e) ↔ t.mapClosest o = none) ∧
      ∀ n : Int, t.mapClosest o = some n →
        mappedLineNumbers t o = .ok (lineNumbersFn t.originalString n)) ∧
    (∀ (source : List Char) (pieces : List StringChunk) (o : Int),
      (∀ p ∈ pieces, ∃ s, p = StringChunk.lit s) →
      mappedLineNumbers (mappedString (.str source) pieces) o
        = .error "Internal Error: bad offset in mappedLineNumbers") := by
  constructor
  · intro t o
    constructor
    · cases hmc : t.mapClosest o with
      | none => simp [mappedLineNumbers, hmc]
      | some n => simp [mappedLineNumbers, hmc]
    · intro n hn
      simp [mappedLineNumbers, hn]
  · intro source pieces o hall
    have hnone : (mappedString (.str source) pieces).mapClosest o = none :=
      mapClosestRaw_none_of_no_source (buildInfos source pieces 0)
        (buildInfos_all_literal source pieces 0 hall) o
    simp [mappedLineNumbers, hnone]

theorem mappedLineNumbers_spec_witness :
    mappedLineNumbers (asMappedString "a\nb".toList) 2
      = .ok (lineNumbersFn "a\nb".toList 2) ∧
    mappedLineNumbers (mappedString (.str "x".toList) [.lit "lit".toList]) 0
      = .error "Internal Error: bad offset in mappedLineNumbers" :=
  ⟨(mappedLineNumbers_spec.1 (asMappedString "a\nb".toList) 2).2 2 rfl,
   mappedLineNumbers_spec.2 "x".toList [.lit "lit".toList] 0
     (by
       intro p hp
       rw [List.mem_singleton] at hp
       subst hp
       exact ⟨"lit".toList, rfl⟩)⟩

/-! ## `mapClosest` refines `map` (C4) -/

theorem mapRaw_closest_agree (infos : List OffsetInfo) (o v : Int)
    (h : mapRaw infos o = some v) : mapClosestRaw infos o = some v := by
  unfold mapRaw at h
  cases hglb : glb infos infoKey o with
  | none =>
    rw [hglb] at h
    exact absurd h (by simp)
  | some ix =>
    simp only [hglb] at h
    cases hget : infos.get? ix with
    | none =>
      rw [hget] at h
      exact absurd h (by simp)
    | some info =>
      simp only [hget] at h
      by_cases hsrc : info.fromSource = true
      · simp only [hsrc, if_true] at h
        by_cases hlen : (info.length : Int) ≤ o - (info.offset : Int)
        · rw [if_pos hlen] at h
          exact absurd h (by simp)
        · rw [if_neg hlen] at h
          cases hr : info.range with
          | none =>
            rw [hr] at h
            exact absurd h (by simp)
          | some r =>
            simp only [hr] at h
            have hkey : (info.offset : Int) ≤ o := by
              obtain ⟨info2, hget2, hk⟩ := glbList_get infoKey o infos ix hglb
              rw [hget2] at hget
              exact Option.some.inj hget ▸ hk
            have hguard : ¬ (infos.length = 0 ∨ o < 0) := by
              push_neg
              refine ⟨fun h0 => ?_, ?_⟩
              · rw [List.length_eq_zero.mp h0] at hglb
                exact absurd hglb (by simp [glb, glbList])
              · have := Int.ofNat_nonneg info.offset
                omega
            unfold mapClosestRaw
            rw [if_neg hguard]
            simp only [hglb]
            have hcond : ix = ix ∧ o - (info.offset : Int) < (info.length : Int) :=
              ⟨rfl, by omega⟩
            cases ix with
            | zero =>
              have hget0 : infos[0]? = some info := by
                rw [← List.get?_eq_getElem?]
                exact hget
              simp [scanBack, hget0, hsrc, sourceHit, hr, hcond, ← h]
            | succ k =>
              have hget1 : infos[k + 1]? = some info := by
                rw [← List.get?_eq_getElem?]
                exact hget
              simp [scanBack, hget1, hsrc, sourceHit, hr, hcond, ← h]
      · simp only [Bool.not_eq_true] at hsrc
        rw [hsrc] at h
        exact absurd h (by simp)

theorem mapClosest_refines_map_aux :
    ∀ (M : MappedString), Produced M →
      ∀ (o v : Int), M.map o = some v → M.mapClosest o = some v := by
  intro M hp
  induction hp with
  | base source pieces =>
    intro o v h
    exact mapRaw_closest_agree (buildInfos source pieces 0) o v h
  | comp m pieces hm ih =>
    intro o v h
    obtain ⟨u, hu, hv⟩ := Option.bind_eq_some.mp h
    have hu2 : (mappedStringRaw m.value pieces).mapClosest o = some u :=
      mapRaw_closest_agree (buildInfos m.value pieces 0) o u hu
    show ((mappedStringRaw m.value pieces).mapClosest o).bind m.mapClosest = some v
    rw [hu2]
    exact ih u v hv
  | ident s =>
    intro o v h
    exact h
  | concat strings c hall hok ih =>
    intro o v h
    cases strings with
    | nil => simp [mappedConcat] at hok
    | cons s0 rest =>
      simp only [mappedConcat, Except.ok.injEq] at hok
      subst hok
      by_cases hguard : o < 0 ∨
          (((List.map (fun s => s.value) (s0 :: rest)).flatten.length : Nat) : Int) ≤ o
      · rw [show ((⟨(List.map (fun s => s.value) (s0 :: rest)).flatten, s0.originalString,
            concatMap (s0 :: rest) (cumulativeOffsets (s0 :: rest) 0)
              (List.map (fun s => s.value) (s0 :: rest)).flatten.length,
            concatMapClosest (s0 :: rest) (cumulativeOffsets (s0 :: rest) 0)
              (List.map (fun s => s.value) (s0 :: rest)).flatten.length⟩ :
              MappedString).map o)
            = concatMap (s0 :: rest) (cumulativeOffsets (s0 :: rest) 0)
              (List.map (fun s => s.value) (s0 :: rest)).flatten.length o from rfl] at h
        unfold concatMap at h
        rw [if_pos hguard] at h
        exact absurd h (by simp)
      · show concatMapClosest (s0 :: rest) (cumulativeOffsets (s0 :: rest) 0)
            (List.map (fun s => s.value) (s0 :: rest)).flatten.length o = some v
        replace h : concatMap (s0 :: rest) (cumulativeOffsets (s0 :: rest) 0)
            (List.map (fun s => s.value) (s0 :: rest)).flatten.length o = some v := h
        unfold concatMap at h
        unfold concatMapClosest
        rw [if_neg hguard] at h ⊢
        cases hglb : glb (cumulativeOffsets (s0 :: rest) 0) (fun x => (x : Int)) o with
        | none =>
          rw [hglb] at h
          exact absurd h (by simp)
        | some ix =>
          simp only [hglb] at h ⊢
          cases hgetS : (s0 :: rest).get? ix with
          | none =>
            simp only [hgetS] at h
            exact absurd h (by simp)
          | some s =>
            cases hgetO : (cumulativeOffsets (s0 :: rest) 0).get? ix with
            | none =>
              simp only [hgetS, hgetO] at h
              exact absurd h (by simp)
            | some off =>
              simp only [hgetS, hgetO] at h ⊢
              exact ih s (List.get?_mem hgetS) _ v h

/-- C4: for every Mapped String produced by `mappedString`, `asMappedString`
or `mappedConcat`, whenever `map` is defined at an offset, `mapClosest`
returns the same value — the closest-match inverse is never stricter than the
exact one. -/
theorem mapClosest_refines_map (M : MappedString) (h : Produced M) (o v : Int)
    (hmap : M.map o = some v) : M.mapClosest o = some v :=
  mapClosest_refines_map_aux M h o v hmap

theorem mapClosest_refines_map_witness :
    (asMappedString "a".toList).mapClosest 0 = some 0 :=
  mapClosest_refines_map (asMappedString "a".toList) (Produced.ident "a".toList) 0 0 rfl

/-! ## Line-offset index (C9) -/

theorem terminatorEnds_eq_spec :
    ∀ (text : List Char) (i : Nat), terminatorEnds text i = specLineStarts text i := by
  intro text i
  induction text, i using terminatorEnds.induct with
  | case1 i => rfl
  | case2 rest i ih =>
    simp [terminatorEnds, specLineStarts, ih]
  | case3 rest i ih =>
    simp [terminatorEnds, specLineStarts, ih]
  | case4 c rest i h1 h2 ih =>
    simp_all [terminatorEnds, specLineStarts]

theorem lineNumbersFn_some (text : List Char) (o : Int) (h0 : 0 ≤ o) :
    ∃ line : Nat,
      glb (lineOffsets text) (fun x => (x : Int)) o = some line ∧
      lineNumbersFn text o = some (line, o - ((lineOffsets text).getD line 0 : Int)) := by
  obtain ⟨j, hj⟩ := glbList_isSome_of_head (fun x => ((x : Nat) : Int)) o 0
    (terminatorEnds text 0 ++ [text.length]) (by simpa using h0)
  refine ⟨j, hj, ?_⟩
  unfold lineNumbersFn
  rw [show glb (lineOffsets text) (fun x => (x : Int)) o
      = glbList (fun x => ((x : Nat) : Int)) o (0 :: (terminatorEnds text 0 ++ [text.length]))
      from rfl]
  simp only [hj]

/-- C9: the line-start table is `0`, then one entry immediately past each
newline (`\r\n` and `\n` both one terminator ending at the `\n`, never
double-counted), then the sentinel `text.length`; lookup of any offset in
`[0, length]` succeeds, choosing the line by greatest-lower-bound over the
table and the column as `offset - lineStart(line)`. -/
theorem lineNumbers_spec :
    (∀ text : List Char,
      lineOffsets text = 0 :: (specLineStarts text 0 ++ [text.length])) ∧
    (∀ (text : List Char) (o : Int), 0 ≤ o → o ≤ (text.length : Int) →
      ∃ line : Nat,
        glb (lineOffsets text) (fun x => (x : Int)) o = some line ∧
        lineNumbersFn text o = some (line, o - ((lineOffsets text).getD line 0 : Int))) := by
  constructor
  · intro text
    rw [lineOffsets, terminatorEnds_eq_spec]
  · intro text o h0 _
    exact lineNumbersFn_some text o h0

theorem lineNumbers_spec_witness :
    ∃ line : Nat,
      glb (lineOffsets "ab\r\ncd".toList) (fun x => (x : Int)) 5 = some line ∧
      lineNumbersFn "ab\r\ncd".toList 5
        = some (line, 5 - ((lineOffsets "ab\r\ncd".toList).getD line 0 : Int)) :=
  lineNumbers_spec.2 "ab\r\ncd".toList 5 (by decide) (by decide)

end Quarto
